import Mathlib

set_option autoImplicit false

/-!
Shallow embedding of the `jsonstorage` package: a generic key-value store
persisting each entry as one JSON file in a single directory.

Go strings are modelled as `List Char` (the keys and file names exercised by
the package are byte strings; the ASCII fragment, which is all the concrete
claims use, is modelled exactly).  The filesystem is modelled per store
directory: `DirState = Option (List (name × Node))`, where `none` means the
base directory does not exist and a `Node` records what reading the named
child yields.  The JSON codec (`encoding/json`) is modelled on parsed JSON
values, with Go's lenient object decoding: missing fields keep the zero
value, `null` is a no-op, unknown fields are ignored, wrong-typed fields
fail.  The payload type `T` is abstract: its codec is a pair of functions
`encT : T → Json`, `decT : Json → Option T`, and its zero value `defT`.
-/

namespace jsonstorage

/-- Models `strings.ToLower` on one character (ASCII fragment of Go's
Unicode lowercasing: `'A'..'Z'` map to `'a'..'z'`, all else unchanged). -/
def toLowerChar (c : Char) : Char :=
  if 'A' ≤ c ∧ c ≤ 'Z' then Char.ofNat (c.toNat + 32) else c

/-- Models `strings.ToLower` (ASCII fragment). -/
def goToLower (s : List Char) : List Char := s.map toLowerChar

/-- Models `net/url.shouldEscape(c, encodePathSegment)`: alphanumerics and
`- _ . ~` are never escaped; of the reserved set `$ & + , / : ; = ? @` a path
segment escapes exactly `/ ; ,`; everything else is escaped. -/
def shouldEscape (c : Char) : Bool :=
  if ('a' ≤ c ∧ c ≤ 'z') ∨ ('A' ≤ c ∧ c ≤ 'Z') ∨ ('0' ≤ c ∧ c ≤ '9') then false
  else if c = '-' ∨ c = '_' ∨ c = '.' ∨ c = '~' then false
  else if c = '$' ∨ c = '&' ∨ c = '+' ∨ c = ':' ∨ c = '=' ∨ c = '?' ∨ c = '@' then false
  else true

/-- Upper-case hexadecimal digit, as `net/url` uses in `%XX` escapes. -/
def hexUpper (n : Nat) : Char :=
  if n < 10 then Char.ofNat (48 + n) else Char.ofNat (65 + n - 10)

/-- One character of `url.PathEscape` output (ASCII fragment: Go escapes
per UTF-8 byte, which coincides with per-character below U+0080). -/
def escapeChar (c : Char) : List Char :=
  if shouldEscape c then ['%', hexUpper (c.toNat / 16), hexUpper (c.toNat % 16)]
  else [c]

/-- Models `url.PathEscape` (ASCII fragment). -/
def pathEscape : List Char → List Char
  | [] => []
  | c :: rest => escapeChar c ++ pathEscape rest

/-- The fixed file extension `".json"` appended to every escaped key. -/
def jsonExt : List Char := ['.', 'j', 's', 'o', 'n']

/-- The file name a key maps to inside the store directory:
`url.PathEscape(strings.ToLower(key)) + ".json"`, as every operation
computes before `filepath.Join(storage.dir, ·)`. -/
def keyFileName (key : List Char) : List Char :=
  pathEscape (goToLower key) ++ jsonExt

/-- Models `filepath.Ext`: the suffix of the name starting at its final
dot, or empty when the name has no dot. -/
def goExt (name : List Char) : List Char :=
  let suffix := name.reverse.takeWhile (fun c => !(c = '.'))
  if suffix.length = name.length then [] else '.' :: suffix.reverse

/-- Parsed JSON documents, the codomain of `encoding/json` parsing. -/
inductive Json where
  | null
  | bool (b : Bool)
  | num (n : Int)
  | str (s : List Char)
  | arr (elems : List Json)
  | obj (fields : List (List Char × Json))

/-- The persisted envelope `entry[T]{ Key string; Value T }` with JSON tags
`"key"` and `"value"` (src/storage.go lines 26-29). -/
structure entry (T : Type) where
  key : List Char
  value : T

/-- The JSON tag of `entry.Key`. -/
def fieldKey : List Char := ['k', 'e', 'y']

/-- The JSON tag of `entry.Value`. -/
def fieldValue : List Char := ['v', 'a', 'l', 'u', 'e']

/-- Models `encoding/json` field-name matching: case-insensitive equality
(exact matches are a special case of it for our two distinct tags). -/
def ciEq (a b : List Char) : Bool := goToLower a == goToLower b

/-- Decode one object member into the partially filled `entry`, following
`encoding/json`: `null` is a no-op, a member matching a struct field must
have the field's type (else the decode errors), unknown members are
ignored; later duplicates overwrite earlier ones via the fold below. -/
def applyField {T : Type} (decT : Json → Option T) (acc : entry T)
    (fld : List Char × Json) : Option (entry T) :=
  if ciEq fld.1 fieldKey then
    match fld.2 with
    | .null => some acc
    | .str s => some { acc with key := s }
    | _ => none
  else if ciEq fld.1 fieldValue then
    match fld.2 with
    | .null => some acc
    | j =>
      match decT j with
      | none => none
      | some v => some { acc with value := v }
  else some acc

/-- Fold the object members over the zero-valued `entry`. -/
def decodeFields {T : Type} (decT : Json → Option T) :
    entry T → List (List Char × Json) → Option (entry T)
  | acc, [] => some acc
  | acc, fld :: rest =>
    match applyField decT acc fld with
    | none => none
    | some acc2 => decodeFields decT acc2 rest

/-- Models `json.Decode` into `entry[T]`: a JSON object fills the struct
from the zero value `{key := "", value := defT}`; `null` is a no-op leaving
the zero value; any other document is a type error. -/
def decodeEntry {T : Type} (decT : Json → Option T) (defT : T) :
    Json → Option (entry T)
  | .null => some { key := [], value := defT }
  | .obj fields => decodeFields decT { key := [], value := defT } fields
  | _ => none

/-- Models `json.Encode` of `entry[T]{Key: key, Value: value}`: the object
with the two tagged members in struct order. -/
def encodeEntry {T : Type} (encT : T → Json) (key : List Char) (value : T) : Json :=
  .obj [(fieldKey, .str key), (fieldValue, encT value)]

/-- What reading one directory child yields.  `subdir` is a (non-empty)
subdirectory; `vanished` is a listed name whose file no longer exists, so
reads fail with `os.ErrNotExist`; `unreadable` is a file whose read fails
with some other I/O error; `malformed` is a file whose bytes are not a
JSON document; `json j` is a file holding the document `j`. -/
inductive Node where
  | subdir
  | vanished
  | unreadable
  | malformed
  | json (j : Json)

/-- The store directory: `none` when the directory does not exist,
otherwise its children in listing order. -/
abbrev DirState := Option (List (List Char × Node))

/-- First binding of `name` in the listing (directory children are unique
in a real filesystem). -/
def lookupEntry : List (List Char × Node) → List Char → Option Node
  | [], _ => none
  | (m, n) :: rest, name => if m = name then some n else lookupEntry rest name

/-- Replace the binding of `name`, or append one. -/
def setEntry : List (List Char × Node) → List Char → Node → List (List Char × Node)
  | [], name, n => [(name, n)]
  | (m, x) :: rest, name, n =>
    if m = name then (name, n) :: rest else (m, x) :: setEntry rest name n

/-- Remove the binding of `name`. -/
def removeEntry : List (List Char × Node) → List Char → List (List Char × Node)
  | [], _ => []
  | (m, x) :: rest, name =>
    if m = name then rest else (m, x) :: removeEntry rest name

/-- Result of `fstools.ReadFileFunc(path, json.Decode)` as the callers
distinguish it: `notExist` when `errors.Is(err, os.ErrNotExist)`,
`otherErr` for every other I/O or decode failure, `ok` on success. -/
inductive ReadDecode (T : Type) where
  | notExist
  | otherErr
  | ok (e : entry T)

/-- Read-and-decode one node. -/
def nodeDecode {T : Type} (decT : Json → Option T) (defT : T) : Node → ReadDecode T
  | .subdir => .otherErr
  | .vanished => .notExist
  | .unreadable => .otherErr
  | .malformed => .otherErr
  | .json j =>
    match decodeEntry decT defT j with
    | none => .otherErr
    | some e => .ok e

/-- Read-and-decode the file `name` in the store directory: a missing
directory or missing file reads as `os.ErrNotExist`. -/
def readDecode {T : Type} (decT : Json → Option T) (defT : T)
    (d : DirState) (name : List Char) : ReadDecode T :=
  match d with
  | none => .notExist
  | some es =>
    match lookupEntry es name with
    | none => .notExist
    | some n => nodeDecode decT defT n

/-- Does the listed node name a subdirectory? -/
def isSubdir : Option Node → Bool
  | some .subdir => true
  | _ => false

/-- Models `fstools.Exists(path)`: false for a missing name or a vanished
file, true for any listed node that is still there. -/
def existsNode : Option Node → Bool
  | none => false
  | some .vanished => false
  | some _ => true

/-- Models `fstools.WriteFileFunc` of the encoded document: parent
directories are created as needed and the file is fully replaced; the
write fails (and changes nothing) when the path names a subdirectory. -/
def writeFile (d : DirState) (name : List Char) (j : Json) : Option DirState :=
  match d with
  | none => some (some [(name, .json j)])
  | some es =>
    if isSubdir (lookupEntry es name) then none
    else some (some (setEntry es name (.json j)))

/-- Errors surfaced by the operations: `notExist key` models
`fmt.Errorf("%w: %s", ErrNotExist, key)` (src/errors.go), `internal`
models an error wrapping `ErrInternal`, and `caller e` is an error from a
caller-supplied callback propagated verbatim. -/
inductive Err (E : Type) where
  | notExist (key : List Char)
  | internal
  | caller (e : E)

/-- Models `Storage.Get` (src/storage.go lines 74-93). -/
def Get {T E : Type} (decT : Json → Option T) (defT : T)
    (d : DirState) (key : List Char) : Except (Err E) T :=
  let k := goToLower key
  let name := pathEscape k ++ jsonExt
  match readDecode decT defT d name with
  | .notExist => .error (.notExist k)
  | .otherErr => .error .internal
  | .ok e => .ok e.value

/-- Models `Storage.Put` (src/storage.go lines 95-113): returns the result and
the directory afterwards. -/
def Put {T E : Type} (encT : T → Json)
    (d : DirState) (key : List Char) (value : T) :
    Except (Err E) Unit × DirState :=
  let k := goToLower key
  let name := pathEscape k ++ jsonExt
  match writeFile d name (encodeEntry encT k value) with
  | none => (.error .internal, d)
  | some d2 => (.ok (), d2)

/-- Models `Storage.Edit` (src/storage.go lines 115-149): the transform `f`
models `func(T) (T, error)`.  Returns the result, the directory
afterwards, and the list of values `f` was invoked on (the code invokes
`f` exactly on the values in that list, in order). -/
def Edit {T E : Type} (decT : Json → Option T) (defT : T) (encT : T → Json)
    (d : DirState) (key : List Char) (f : T → Except E T) :
    Except (Err E) T × DirState × List T :=
  let k := goToLower key
  let name := pathEscape k ++ jsonExt
  match readDecode decT defT d name with
  | .notExist => (.error (.notExist k), d, [])
  | .otherErr => (.error .internal, d, [])
  | .ok ent =>
    match f ent.value with
    | .error e => (.error (.caller e), d, [ent.value])
    | .ok v =>
      match writeFile d name (encodeEntry encT k v) with
      | none => (.error .internal, d, [ent.value])
      | some d2 => (.ok v, d2, [ent.value])

/-- Models `Storage.Delete` (src/storage.go lines 151-165): `fstools.Exists` is
false for a missing directory, a missing name, or a vanished file, and
true otherwise; `os.Remove` fails on a (non-empty) subdirectory and
succeeds on any file. -/
def Delete {E : Type} (d : DirState) (key : List Char) :
    Except (Err E) Unit × DirState :=
  let name := pathEscape (goToLower key) ++ jsonExt
  match d with
  | none => (.ok (), d)
  | some es =>
    if existsNode (lookupEntry es name) then
      if isSubdir (lookupEntry es name) then (.error .internal, d)
      else (.ok (), some (removeEntry es name))
    else (.ok (), d)

/-- The body of `Storage.Range`'s loop over the directory listing
(src/storage.go lines 43-70): skip subdirectories, skip names whose
`filepath.Ext` is not `".json"`, skip files that vanished between listing
and reading, abort with `internal` on any other read or decode failure,
and stop with the visitor's error verbatim when it fails.  Also returns
the list of `(key, value)` pairs the visitor was invoked on, in order. -/
def rangeLoop {T E : Type} (decT : Json → Option T) (defT : T)
    (f : List Char → T → Option E) :
    List (List Char × Node) → Except (Err E) Unit × List (List Char × T)
  | [] => (.ok (), [])
  | (name, node) :: rest =>
    match node with
    | .subdir => rangeLoop decT defT f rest
    | _ =>
      if goExt name = jsonExt then
        match nodeDecode decT defT node with
        | .notExist => rangeLoop decT defT f rest
        | .otherErr => (.error .internal, [])
        | .ok e =>
          match f e.key e.value with
          | some err => (.error (.caller err), [(e.key, e.value)])
          | none =>
            let r := rangeLoop decT defT f rest
            (r.1, (e.key, e.value) :: r.2)
      else rangeLoop decT defT f rest

/-- Models `Storage.Range` (src/storage.go lines 31-72): the visitor `f` models
`func(string, T) error` (`none` = nil error).  A missing base directory
reads as `os.ErrNotExist` from `fstools.ReadDir` and returns nil. -/
def Range {T E : Type} (decT : Json → Option T) (defT : T)
    (f : List Char → T → Option E) (d : DirState) :
    Except (Err E) Unit × List (List Char × T) :=
  match d with
  | none => (.ok (), [])
  | some es => rangeLoop decT defT f es

/-- Specification-side predicate, independent of the operations: there is
no file at `name` in the store directory (the directory is missing, the
name is unlisted, or the listed file vanished). -/
def noFile (d : DirState) (name : List Char) : Bool :=
  match d with
  | none => true
  | some es =>
    match lookupEntry es name with
    | none => true
    | some .vanished => true
    | some _ => false

end jsonstorage

namespace part000

open jsonstorage in
/-- The read helper `Storage.get(path)` of the second implementation
(src/unnamed/part_000 lines 85-91): `fstools.ReadFileFunc` with
`json.Decode`, exactly the shared read-and-decode step. -/
def get {T : Type} (decT : Json → Option T) (defT : T)
    (d : DirState) (name : List Char) : ReadDecode T :=
  readDecode decT defT d name

open jsonstorage in
/-- Models `Storage.Get` of the second implementation (src/unnamed/part_000
lines 70-83), written through its `get` helper. -/
def Get {T E : Type} (decT : Json → Option T) (defT : T)
    (d : DirState) (key : List Char) : Except (Err E) T :=
  let k := goToLower key
  let name := pathEscape k ++ jsonExt
  match get decT defT d name with
  | .notExist => .error (.notExist k)
  | .otherErr => .error .internal
  | .ok e => .ok e.value

open jsonstorage in
/-- Models `Storage.Put` of the second implementation (src/unnamed/part_000
lines 93-108). -/
def Put {T E : Type} (encT : T → Json)
    (d : DirState) (key : List Char) (value : T) :
    Except (Err E) Unit × DirState :=
  let k := goToLower key
  let name := pathEscape k ++ jsonExt
  match writeFile d name (encodeEntry encT k value) with
  | none => (.error .internal, d)
  | some d2 => (.ok (), d2)

open jsonstorage in
/-- Models `Storage.Delete` of the second implementation (src/unnamed/part_000
lines 110-123): same `Exists`-then-`Remove` protocol. -/
def Delete {E : Type} (d : DirState) (key : List Char) :
    Except (Err E) Unit × DirState :=
  let name := pathEscape (goToLower key) ++ jsonExt
  match d with
  | none => (.ok (), d)
  | some es =>
    if existsNode (lookupEntry es name) then
      if isSubdir (lookupEntry es name) then (.error .internal, d)
      else (.ok (), some (removeEntry es name))
    else (.ok (), d)

open jsonstorage in
/-- The loop of `Storage.Range` of the second implementation
(src/unnamed/part_000 lines 31-67), reading each file through its `get`
helper applied to the joined path. -/
def rangeLoop {T E : Type} (decT : Json → Option T) (defT : T)
    (f : List Char → T → Option E) :
    List (List Char × Node) → Except (Err E) Unit × List (List Char × T)
  | [] => (.ok (), [])
  | (name, node) :: rest =>
    match node with
    | .subdir => rangeLoop decT defT f rest
    | _ =>
      if goExt name = jsonExt then
        match nodeDecode decT defT node with
        | .notExist => rangeLoop decT defT f rest
        | .otherErr => (.error .internal, [])
        | .ok e =>
          match f e.key e.value with
          | some err => (.error (.caller err), [(e.key, e.value)])
          | none =>
            let r := rangeLoop decT defT f rest
            (r.1, (e.key, e.value) :: r.2)
      else rangeLoop decT defT f rest

open jsonstorage in
/-- Models `Storage.Range` of the second implementation (src/unnamed/part_000
lines 31-67). -/
def Range {T E : Type} (decT : Json → Option T) (defT : T)
    (f : List Char → T → Option E) (d : DirState) :
    Except (Err E) Unit × List (List Char × T) :=
  match d with
  | none => (.ok (), [])
  | some es => rangeLoop decT defT f es

end part000

open jsonstorage

namespace jsonstorage

/-- A concrete payload codec (`T = int` with `encoding/json` numbers),
used to instantiate the generic theorems on concrete inputs. -/
def decInt : Json → Option Int
  | .num n => some n
  | _ => none

/-- Encoding side of the concrete `int` codec. -/
def encInt : Int → Json := .num

end jsonstorage

namespace jsonstorage

@[simp] theorem ciEq_key_key : ciEq fieldKey fieldKey = true := rfl

@[simp] theorem ciEq_value_key : ciEq fieldValue fieldKey = false := rfl

@[simp] theorem ciEq_value_value : ciEq fieldValue fieldValue = true := rfl

theorem lookupEntry_setEntry_self (es : List (List Char × Node))
    (name : List Char) (n : Node) :
    lookupEntry (setEntry es name n) name = some n := by
  induction es with
  | nil => simp [setEntry, lookupEntry]
  | cons hd tl ih =>
    obtain ⟨m, x⟩ := hd
    by_cases h : m = name
    · simp [setEntry, h, lookupEntry]
    · simp [setEntry, h, lookupEntry, ih]

/-- Decoding inverts encoding of an entry, for any lawful payload codec
whose encoder does not emit bare `null`. -/
theorem decodeEntry_encodeEntry {T : Type} (decT : Json → Option T) (defT : T)
    (encT : T → Json) (k : List Char) (v : T)
    (hv : decT (encT v) = some v) (hnn : encT v ≠ Json.null) :
    decodeEntry decT defT (encodeEntry encT k v) = some ⟨k, v⟩ := by
  cases hj : encT v <;> rw [hj] at hv <;>
    simp_all [encodeEntry, decodeEntry, decodeFields, applyField]

theorem writeFile_some {d : DirState} {name : List Char} {j : Json} {d2 : DirState}
    (h : writeFile d name j = some d2) :
    ∃ es2, d2 = some es2 ∧ lookupEntry es2 name = some (.json j) := by
  cases d with
  | none =>
    simp [writeFile] at h
    exact ⟨_, h.symm, by simp [lookupEntry]⟩
  | some es =>
    by_cases hs : isSubdir (lookupEntry es name)
    · simp [writeFile, hs] at h
    · simp [writeFile, hs] at h
      exact ⟨_, h.symm, lookupEntry_setEntry_self es name (.json j)⟩

end jsonstorage

/-- C1: for every key `k` and value `v` (with a lawful payload codec),
after `Put(k, v)` succeeds, a `Get(k)` on the resulting store state
succeeds and returns exactly `v`. -/
theorem put_then_get_roundtrip {T E : Type} (decT : Json → Option T) (defT : T)
    (encT : T → Json) (d : DirState) (key : List Char) (v : T)
    (hv : decT (encT v) = some v) (hnn : encT v ≠ Json.null)
    (hok : (Put (E := E) encT d key v).1 = .ok ()) :
    Get (E := E) decT defT (Put (E := E) encT d key v).2 key = .ok v := by
  cases hw : writeFile d (pathEscape (goToLower key) ++ jsonExt)
      (encodeEntry encT (goToLower key) v) with
  | none => simp [Put, hw] at hok
  | some d2 =>
    obtain ⟨es2, rfl, hl⟩ := writeFile_some hw
    simp [Put, hw, Get, readDecode, hl, nodeDecode,
      decodeEntry_encodeEntry decT defT encT _ v hv hnn]

/-- Witness for C1 at a concrete input: `T = int`, key `"Foo"`, value 5,
starting from a store whose directory does not exist. -/
theorem put_then_get_roundtrip_witness :
    Get (E := Unit) decInt 0
      (Put (E := Unit) encInt none "Foo".toList 5).2 "Foo".toList = .ok 5 :=
  put_then_get_roundtrip decInt 0 encInt none
    "Foo".toList 5 rfl (by simp [encInt]) rfl

theorem jsonstorage.readDecode_notExist_iff_noFile {T : Type}
    (decT : Json → Option T) (defT : T) (d : DirState) (name : List Char) :
    readDecode decT defT d name = .notExist ↔ noFile d name = true := by
  cases d with
  | none => simp [readDecode, noFile]
  | some es =>
    cases hl : lookupEntry es name with
    | none => simp [readDecode, noFile, hl]
    | some n =>
      cases n with
      | json j =>
        cases hd : decodeEntry decT defT j <;>
          simp [readDecode, noFile, hl, nodeDecode, hd]
      | _ => simp [readDecode, noFile, hl, nodeDecode]

theorem jsonstorage.noFile_some_eq (es : List (List Char × Node)) (name : List Char) :
    noFile (some es) name = !existsNode (lookupEntry es name) := by
  cases hl : lookupEntry es name with
  | none => simp [noFile, existsNode, hl]
  | some n => cases n <;> simp [noFile, existsNode, hl]

/-- Reading via `Get` on a store whose file for `key` holds an encoded entry returns
the entry's value, whatever key string the envelope carries. -/
theorem jsonstorage.Get_of_lookup_encoded {T E : Type} (decT : Json → Option T)
    (defT : T) (encT : T → Json) (es : List (List Char × Node))
    (key storedKey : List Char) (v : T)
    (hv : decT (encT v) = some v) (hnn : encT v ≠ Json.null)
    (hl : lookupEntry es (keyFileName key) = some (.json (encodeEntry encT storedKey v))) :
    Get (E := E) decT defT (some es) key = .ok v := by
  simp only [keyFileName] at hl
  simp [Get, readDecode, hl, nodeDecode,
    decodeEntry_encodeEntry decT defT encT storedKey v hv hnn]

/-- C3: `Put("Foo", v)` on a fresh store succeeds, `Get("foo")` and
`Get("FOO")` both return `v`, the store directory then holds exactly one
file, and in general any two keys with the same lowercasing map to the
same file name. -/
theorem put_case_insensitive {T E : Type} (decT : Json → Option T) (defT : T)
    (encT : T → Json) (v : T)
    (hv : decT (encT v) = some v) (hnn : encT v ≠ Json.null) :
    (Put (E := E) encT none "Foo".toList v).1 = .ok () ∧
    Get (E := E) decT defT (Put (E := E) encT none "Foo".toList v).2
      "foo".toList = .ok v ∧
    Get (E := E) decT defT (Put (E := E) encT none "Foo".toList v).2
      "FOO".toList = .ok v ∧
    (∃ es, (Put (E := E) encT none "Foo".toList v).2 = some es ∧ es.length = 1) ∧
    (∀ k1 k2 : List Char, goToLower k1 = goToLower k2 →
      keyFileName k1 = keyFileName k2) := by
  refine ⟨rfl, ?_, ?_, ⟨_, rfl, rfl⟩, ?_⟩
  · exact Get_of_lookup_encoded decT defT encT _ "foo".toList
      (goToLower "Foo".toList) v hv hnn rfl
  · exact Get_of_lookup_encoded decT defT encT _ "FOO".toList
      (goToLower "Foo".toList) v hv hnn rfl
  · intro k1 k2 h
    simp [keyFileName, h]

/-- Witness for C3 at `T = int`, `v = 5`: reading back under `"FOO"`. -/
theorem put_case_insensitive_witness :
    Get (E := Unit) decInt 0 (Put (E := Unit) encInt none "Foo".toList 5).2
      "FOO".toList = .ok 5 :=
  (put_case_insensitive decInt 0 encInt 5 rfl (by simp [encInt])).2.2.1

/-- C10: `Get(k)` returns the `value` field of whatever entry decodes from
the file at `k`'s mapped path, with no check that the envelope's stored
`key` equals the canonical form of `k`: `storedKey` below is arbitrary. -/
theorem get_ignores_stored_key {T E : Type} (decT : Json → Option T) (defT : T)
    (encT : T → Json) (es : List (List Char × Node))
    (key storedKey : List Char) (v : T)
    (hv : decT (encT v) = some v) (hnn : encT v ≠ Json.null)
    (hl : lookupEntry es (keyFileName key) = some (.json (encodeEntry encT storedKey v))) :
    Get (E := E) decT defT (some es) key = .ok v :=
  Get_of_lookup_encoded decT defT encT es key storedKey v hv hnn hl

/-- Witness for C10: the file for key `"A"` carries envelope key `"zzz"`,
and `Get("A")` still succeeds with that file's value. -/
theorem get_ignores_stored_key_witness :
    Get (E := Unit) decInt 0
      (some [("a.json".toList, .json (encodeEntry encInt "zzz".toList 7))])
      "A".toList = .ok 7 :=
  get_ignores_stored_key decInt 0 encInt _ "A".toList "zzz".toList 7
    rfl (by simp [encInt]) rfl

/-- C2: when the entry for `k` exists and the transform fails, `Edit(k, f)`
returns the transform's error verbatim (as `caller e`, not `internal`),
leaves the store state unchanged, and invoked `f` exactly once, on the
stored value. -/
theorem edit_transform_error_verbatim {T E : Type} (decT : Json → Option T)
    (defT : T) (encT : T → Json) (d : DirState) (key : List Char)
    (f : T → Except E T) (ent : entry T) (e : E)
    (hread : readDecode decT defT d (keyFileName key) = .ok ent)
    (hf : f ent.value = .error e) :
    Edit decT defT encT d key f = (.error (.caller e), d, [ent.value]) := by
  simp only [keyFileName] at hread
  simp [Edit, hread, hf]

/-- Witness for C2: stored value 5 under key `"k"`, transform failing with
error 42; the result carries 42 verbatim and the state is unchanged. -/
theorem edit_transform_error_verbatim_witness :
    Edit decInt 0 encInt
      (some [("k.json".toList, .json (encodeEntry encInt "k".toList 5))])
      "k".toList (fun _ => .error 42) =
      (.error (.caller 42),
        some [("k.json".toList, .json (encodeEntry encInt "k".toList 5))], [5]) :=
  edit_transform_error_verbatim decInt 0 encInt _ "k".toList _ ⟨"k".toList, 5⟩ 42
    rfl rfl

/-- C4: `Get(k)` fails with the NotExist error exactly when no file exists
at the mapped path; it fails with the Internal error exactly when a file
is there but its read or decode fails; and it succeeds exactly when the
read-and-decode succeeds. -/
theorem get_error_classification {T E : Type} (decT : Json → Option T)
    (defT : T) (d : DirState) (key : List Char) :
    (Get (E := E) decT defT d key = .error (.notExist (goToLower key)) ↔
      noFile d (keyFileName key) = true) ∧
    (Get (E := E) decT defT d key = .error .internal ↔
      (noFile d (keyFileName key) = false ∧
        readDecode decT defT d (keyFileName key) = .otherErr)) ∧
    ((∃ v, Get (E := E) decT defT d key = .ok v) ↔
      (∃ e, readDecode decT defT d (keyFileName key) = .ok e)) := by
  have hiff := readDecode_notExist_iff_noFile decT defT d (keyFileName key)
  cases hr : readDecode decT defT d (keyFileName key) with
  | notExist =>
    rw [hr] at hiff
    simp only [keyFileName] at hr
    simp [Get, hr, ← hiff]
  | otherErr =>
    rw [hr] at hiff
    have hnf : noFile d (keyFileName key) = false := by
      cases h : noFile d (keyFileName key)
      · rfl
      · exact absurd (hiff.2 h) (by simp)
    simp only [keyFileName] at hr
    simp [Get, hr, hnf]
  | ok e =>
    rw [hr] at hiff
    have hnf : noFile d (keyFileName key) = false := by
      cases h : noFile d (keyFileName key)
      · rfl
      · exact absurd (hiff.2 h) (by simp)
    simp only [keyFileName] at hr
    simp [Get, hr, hnf]

/-- C5: when no file exists at `k`'s mapped path, `Edit(k, f)` fails with
the NotExist error, never invokes `f` (empty invocation list), and leaves
the store state unchanged. -/
theorem edit_absent_fails {T E : Type} (decT : Json → Option T) (defT : T)
    (encT : T → Json) (d : DirState) (key : List Char) (f : T → Except E T)
    (h : noFile d (keyFileName key) = true) :
    Edit decT defT encT d key f = (.error (.notExist (goToLower key)), d, []) := by
  have hr := (readDecode_notExist_iff_noFile decT defT d (keyFileName key)).2 h
  simp only [keyFileName] at hr
  simp [Edit, hr]

/-- Witness for C5: editing a missing key on a store whose directory was
never created. -/
theorem edit_absent_fails_witness :
    Edit (E := Unit) decInt 0 encInt none "x".toList (fun v => .ok v) =
      (.error (.notExist "x".toList), none, []) :=
  edit_absent_fails (E := Unit) decInt 0 encInt none "x".toList (fun v => .ok v) rfl

/-- C6: when the store's base directory does not exist, `Range(f)` returns
success and invokes the visitor zero times. -/
theorem range_missing_dir {T E : Type} (decT : Json → Option T) (defT : T)
    (f : List Char → T → Option E) :
    Range decT defT f none = (.ok (), []) := rfl

theorem jsonstorage.rangeLoop_no_notExist {T E : Type} (decT : Json → Option T)
    (defT : T) (f : List Char → T → Option E)
    (es : List (List Char × Node)) (s : List Char) :
    (rangeLoop decT defT f es).1 ≠ .error (.notExist s) := by
  induction es with
  | nil => simp [rangeLoop]
  | cons hd rest ih =>
    obtain ⟨name, node⟩ := hd
    cases node with
    | subdir => simpa [rangeLoop] using ih
    | vanished =>
      by_cases hg : goExt name = jsonExt <;>
        simpa [rangeLoop, hg, nodeDecode] using ih
    | unreadable =>
      by_cases hg : goExt name = jsonExt
      · simp [rangeLoop, hg, nodeDecode]
      · simpa [rangeLoop, hg] using ih
    | malformed =>
      by_cases hg : goExt name = jsonExt
      · simp [rangeLoop, hg, nodeDecode]
      · simpa [rangeLoop, hg] using ih
    | json j =>
      by_cases hg : goExt name = jsonExt
      · cases hn : nodeDecode decT defT (.json j) with
        | notExist => simpa [rangeLoop, hg, hn] using ih
        | otherErr => simp [rangeLoop, hg, hn]
        | ok e =>
          cases hf : f e.key e.value with
          | some err => simp [rangeLoop, hg, hn, hf]
          | none => simpa [rangeLoop, hg, hn, hf] using ih
      · simpa [rangeLoop, hg] using ih

theorem jsonstorage.rangeLoop_skip_vanished {T E : Type} (decT : Json → Option T)
    (defT : T) (f : List Char → T → Option E)
    (pre post : List (List Char × Node)) (nm : List Char) :
    rangeLoop decT defT f (pre ++ (nm, .vanished) :: post) =
      rangeLoop decT defT f (pre ++ post) := by
  induction pre with
  | nil =>
    by_cases hg : goExt nm = jsonExt <;> simp [rangeLoop, hg, nodeDecode]
  | cons hd pre ih =>
    obtain ⟨n0, nd0⟩ := hd
    cases nd0 with
    | subdir => simpa [rangeLoop] using ih
    | vanished =>
      by_cases hg : goExt n0 = jsonExt <;>
        simpa [rangeLoop, hg, nodeDecode] using ih
    | unreadable =>
      by_cases hg : goExt n0 = jsonExt <;> simp [rangeLoop, hg, nodeDecode, ih]
    | malformed =>
      by_cases hg : goExt n0 = jsonExt <;> simp [rangeLoop, hg, nodeDecode, ih]
    | json j =>
      by_cases hg : goExt n0 = jsonExt
      · cases hn : nodeDecode decT defT (.json j) with
        | notExist => simpa [rangeLoop, hg, hn] using ih
        | otherErr => simp [rangeLoop, hg, hn]
        | ok e =>
          cases hf : f e.key e.value with
          | some err => simp [rangeLoop, hg, hn, hf]
          | none => simp [rangeLoop, hg, hn, hf, ih]
      · simpa [rangeLoop, hg] using ih

theorem jsonstorage.Delete_of_noFile {E : Type} (d : DirState) (key : List Char)
    (h : noFile d (keyFileName key) = true) :
    Delete (E := E) d key = (.ok (), d) := by
  cases d with
  | none => rfl
  | some es =>
    rw [noFile_some_eq] at h
    simp only [keyFileName] at h
    simp only [Bool.not_eq_true'] at h
    simp [Delete, h]

/-- C7: `Put` and `Delete` never return the NotExist error, and neither
does `Range`: `Delete` treats an absent file as success leaving the state
unchanged, and `Range` behaves on a listing containing a vanished file
exactly as on the listing without it (the entry is silently skipped). -/
theorem put_delete_range_never_notexist {T E : Type} (decT : Json → Option T)
    (defT : T) (encT : T → Json) (d : DirState) (key : List Char) (v : T)
    (f : List Char → T → Option E) (pre post : List (List Char × Node))
    (nm : List Char) :
    (∀ s, (Put (E := E) encT d key v).1 ≠ .error (.notExist s)) ∧
    (∀ s, (Delete (E := E) d key).1 ≠ .error (.notExist s)) ∧
    (∀ s, (Range decT defT f d).1 ≠ .error (.notExist s)) ∧
    (noFile d (keyFileName key) = true → Delete (E := E) d key = (.ok (), d)) ∧
    (Range decT defT f (some (pre ++ (nm, .vanished) :: post)) =
      Range decT defT f (some (pre ++ post))) := by
  refine ⟨?_, ?_, ?_, Delete_of_noFile d key, ?_⟩
  · intro s
    cases hw : writeFile d (pathEscape (goToLower key) ++ jsonExt)
        (encodeEntry encT (goToLower key) v) <;> simp [Put, hw]
  · intro s
    cases d with
    | none => simp [Delete]
    | some es =>
      by_cases he : existsNode (lookupEntry es (pathEscape (goToLower key) ++ jsonExt)) <;>
        by_cases hs : isSubdir (lookupEntry es (pathEscape (goToLower key) ++ jsonExt)) <;>
        simp [Delete, he, hs]
  · intro s
    cases d with
    | none => simp [Range]
    | some es => simpa [Range] using rangeLoop_no_notExist decT defT f es s
  · simpa [Range] using rangeLoop_skip_vanished decT defT f pre post nm

/-- Witness for C7: deleting a key on a store whose directory was never
created succeeds and changes nothing. -/
theorem put_delete_range_never_notexist_witness :
    Delete (E := Unit) none "x".toList = (.ok (), none) :=
  (put_delete_range_never_notexist decInt 0 encInt none "x".toList 0
    (fun _ _ => none) [] [] []).2.2.2.1 rfl

/-- C8 counterexample: the payload `{}` is a well-formed JSON object
missing both named fields, yet decoding accepts it with zero-value
defaults and `Get` on such a file succeeds instead of failing with a
decode error. -/
theorem decode_missing_fields_counterexample :
    decodeEntry decInt 0 (.obj []) = some { key := [], value := 0 } ∧
    Get (E := Unit) decInt 0 (some [("a.json".toList, .json (.obj []))])
      "a".toList = .ok 0 :=
  ⟨rfl, rfl⟩

/-- C8 amended: a malformed payload fails with a decode error (surfaced
by `Get` as the Internal error), and a named field of the wrong type
fails the decode; but a well-formed object payload missing either of the
two named fields is accepted, the missing fields keeping their zero
values. -/
theorem decode_leniency {T E : Type} (decT : Json → Option T) (defT : T)
    (key k : List Char) :
    nodeDecode decT defT .malformed = (.otherErr : ReadDecode T) ∧
    Get (E := E) decT defT (some [(keyFileName key, .malformed)]) key =
      .error .internal ∧
    decodeEntry decT defT (.obj []) = some { key := [], value := defT } ∧
    decodeEntry decT defT (.obj [(fieldKey, .str k)]) =
      some { key := k, value := defT } ∧
    decodeEntry decT defT (.obj [(fieldKey, .num 3)]) = none := by
  refine ⟨rfl, ?_, rfl, ?_, ?_⟩
  · simp [Get, readDecode, keyFileName, lookupEntry, nodeDecode]
  · simp [decodeEntry, decodeFields, applyField]
  · simp [decodeEntry, decodeFields, applyField]

theorem jsonstorage.rangeLoop_eq_part000 {T E : Type} (decT : Json → Option T)
    (defT : T) (f : List Char → T → Option E) (es : List (List Char × Node)) :
    part000.rangeLoop decT defT f es = rangeLoop decT defT f es := by
  induction es with
  | nil => rfl
  | cons hd rest ih =>
    obtain ⟨name, node⟩ := hd
    cases node with
    | subdir => simpa [rangeLoop, part000.rangeLoop] using ih
    | json j =>
      by_cases hg : goExt name = jsonExt
      · cases hn : nodeDecode decT defT (.json j) with
        | notExist => simpa [rangeLoop, part000.rangeLoop, hg, hn] using ih
        | otherErr => simp [rangeLoop, part000.rangeLoop, hg, hn]
        | ok e =>
          cases hf : f e.key e.value with
          | some err => simp [rangeLoop, part000.rangeLoop, hg, hn, hf]
          | none => simp [rangeLoop, part000.rangeLoop, hg, hn, hf, ih]
      · simpa [rangeLoop, part000.rangeLoop, hg] using ih
    | vanished =>
      by_cases hg : goExt name = jsonExt <;>
        simpa [rangeLoop, part000.rangeLoop, hg, nodeDecode] using ih
    | unreadable =>
      by_cases hg : goExt name = jsonExt
      · simp [rangeLoop, part000.rangeLoop, hg, nodeDecode]
      · simpa [rangeLoop, part000.rangeLoop, hg] using ih
    | malformed =>
      by_cases hg : goExt name = jsonExt
      · simp [rangeLoop, part000.rangeLoop, hg, nodeDecode]
      · simpa [rangeLoop, part000.rangeLoop, hg] using ih

/-- C9: the implementation in src/storage.go and the one in
src/unnamed/part_000 agree observationally on their shared surface: for
every directory state, key, value and callback, `Get`, `Put`, `Delete`
and `Range` return the same result and leave the same directory state. -/
theorem implementations_observationally_equal {T E : Type}
    (decT : Json → Option T) (defT : T) (encT : T → Json) (d : DirState)
    (key : List Char) (v : T) (f : List Char → T → Option E) :
    part000.Get (E := E) decT defT d key = Get (E := E) decT defT d key ∧
    part000.Put (E := E) encT d key v = Put (E := E) encT d key v ∧
    part000.Delete (E := E) d key = Delete (E := E) d key ∧
    part000.Range decT defT f d = Range decT defT f d := by
  refine ⟨rfl, rfl, rfl, ?_⟩
  cases d with
  | none => rfl
  | some es => simpa [Range, part000.Range] using rangeLoop_eq_part000 decT defT f es
